import Mathlib

/-!
Shallow embedding of the fractal mesh generator core
(`src/utils/fractalGeneration.ts` of t0waxx/gen-fractal-model).

Coordinates are modelled as rationals (`ℚ`): all arithmetic performed by the
generators (midpoints, halving, thirds) is exact field arithmetic, and the
weld key mirrors JavaScript `Number.prototype.toFixed(5)`: the sign of the
number is recorded separately and the magnitude is rounded half-up at five
decimal places, so that `-0.000001` and `0.000001` produce the distinct keys
`"-0.00000"` and `"0.00000"` exactly as the string keys in the source do.

The mutable arrays (`allBufferVertices`, `allBufferIndices`,
`allExportVertices`, `allExportFaces`) and the `Map` (`vertexMap`) that the
source threads through the recursion are modelled as one explicit state
record `GenState`; the `Map` becomes an insertion-ordered association list
(first match wins on lookup, append on insert — the source only inserts
absent keys, so this is exact).
-/

attribute [local semireducible] Rat.add Rat.sub Rat.mul Rat.inv

/-- `Vector3D` / `THREE.Vector3` as used by the generator: a plain
three-component coordinate. -/
structure Vec3 where
  x : ℚ
  y : ℚ
  z : ℚ
deriving DecidableEq, Repr

/-- `Face`: an ordered triple of vertex indices. -/
structure Face where
  v1 : ℕ
  v2 : ℕ
  v3 : ℕ
deriving DecidableEq, Repr

/-- `p.clone().add(q)` — componentwise sum. -/
def Vec3.add (p q : Vec3) : Vec3 := ⟨p.x + q.x, p.y + q.y, p.z + q.z⟩

/-- `p.multiplyScalar(s)` — scalar multiple. -/
def Vec3.smul (p : Vec3) (s : ℚ) : Vec3 := ⟨p.x * s, p.y * s, p.z * s⟩

/-- One coordinate of the weld key: the result of `x.toFixed(5)` modelled as
(sign, half-up-rounded magnitude at 5 decimals).  ECMAScript `toFixed`
prints a leading `-` for every negative number (even when the magnitude
rounds to zero) and rounds the magnitude to the nearest multiple of
`10^-5`, ties picking the larger magnitude. -/
def tofix5 (a : ℚ) : Bool × ℤ :=
  if a < 0 then (true, ⌊-a * 100000 + 1/2⌋) else (false, ⌊a * 100000 + 1/2⌋)

/-- The type of quantized vertex keys: one (sign, rounded magnitude) pair
per coordinate. -/
abbrev VKey := (Bool × ℤ) × (Bool × ℤ) × (Bool × ℤ)

/-- The full quantized key `"x.toFixed(5),y.toFixed(5),z.toFixed(5)"` of a
vertex, as a triple of coordinate keys. -/
def quantKey (v : Vec3) : VKey :=
  (tofix5 v.x, tofix5 v.y, tofix5 v.z)

/-- The generation state threaded through the recursion: the four output
arrays of `GenerationOutput` plus the welding `vertexMap`. -/
structure GenState where
  bufferVertices : List ℚ
  bufferIndices : List ℕ
  vertexMap : List (VKey × ℕ)
  exportVertices : List Vec3
  exportFaces : List Face
deriving DecidableEq, Repr

/-- The fresh, empty state each top-level `generate*` call starts from. -/
def emptyState : GenState := ⟨[], [], [], [], []⟩

/-- `vertexMap.has(key)` / `vertexMap.get(key)` combined: first-match lookup
in the insertion-ordered association list. -/
def lookupKey (m : List (VKey × ℕ)) (k : VKey) : Option ℕ :=
  match m with
  | [] => none
  | e :: rest => if e.1 = k then some e.2 else lookupKey rest k

/-- `addUniqueVertex`: compute the quantized key of `vertex`; if present in
the map return the stored index unchanged, otherwise append the original
vertex to `exportVertices`, its three coordinates to `bufferVertices`,
record the key at index `exportVertices.length`, and return that index. -/
def addUniqueVertex (vertex : Vec3) (s : GenState) : ℕ × GenState :=
  let key := quantKey vertex
  match lookupKey s.vertexMap key with
  | some i => (i, s)
  | none =>
    let newIndex := s.exportVertices.length
    (newIndex,
      { s with
        bufferVertices := s.bufferVertices ++ [vertex.x, vertex.y, vertex.z],
        exportVertices := s.exportVertices ++ [vertex],
        vertexMap := s.vertexMap ++ [(key, newIndex)] })

/-- Sequential `vertices.map(v => addUniqueVertex(v, ...))`: welds each
vertex in order, returning the list of indices and the final state. -/
def addUniqueVertices (vs : List Vec3) (s : GenState) : List ℕ × GenState :=
  match vs with
  | [] => ([], s)
  | v :: rest =>
    let r := addUniqueVertex v s
    let rs := addUniqueVertices rest r.2
    (r.1 :: rs.1, rs.2)

/-- `allBufferIndices.push(a, b, c); allExportFaces.push({v1:a,v2:b,v3:c})`. -/
def pushFace (a b c : ℕ) (s : GenState) : GenState :=
  { s with
    bufferIndices := s.bufferIndices ++ [a, b, c],
    exportFaces := s.exportFaces ++ [⟨a, b, c⟩] }

/-- `facesData.forEach(...)`: push each index triple as a face. -/
def pushFaces (fs : List (ℕ × ℕ × ℕ)) (s : GenState) : GenState :=
  fs.foldl (fun acc f => pushFace f.1 f.2.1 f.2.2 acc) s

/-- `subdivideTetrahedron`: at level 0 weld the four corners and emit the
four faces with the fixed winding `(1,3,2) (1,2,4) (1,4,3) (2,3,4)`;
otherwise recurse into the four corner sub-tetrahedra spanned by the
corners and the six pairwise edge midpoints. -/
def subdivideTetrahedron (p1 p2 p3 p4 : Vec3) (level : ℕ) (s : GenState) :
    GenState :=
  match level with
  | 0 =>
    let r1 := addUniqueVertex p1 s
    let r2 := addUniqueVertex p2 r1.2
    let r3 := addUniqueVertex p3 r2.2
    let r4 := addUniqueVertex p4 r3.2
    let s1 := pushFace r1.1 r3.1 r2.1 r4.2
    let s2 := pushFace r1.1 r2.1 r4.1 s1
    let s3 := pushFace r1.1 r4.1 r3.1 s2
    pushFace r2.1 r3.1 r4.1 s3
  | n + 1 =>
    let m12 := (p1.add p2).smul (1/2)
    let m13 := (p1.add p3).smul (1/2)
    let m14 := (p1.add p4).smul (1/2)
    let m23 := (p2.add p3).smul (1/2)
    let m24 := (p2.add p4).smul (1/2)
    let m34 := (p3.add p4).smul (1/2)
    let s1 := subdivideTetrahedron p1 m12 m13 m14 n s
    let s2 := subdivideTetrahedron m12 p2 m23 m24 n s1
    let s3 := subdivideTetrahedron m13 m23 p3 m34 n s2
    subdivideTetrahedron m14 m24 m34 p4 n s3

/-- `generateSierpinskiTetrahedron(level, size)`. -/
def generateSierpinskiTetrahedron (level : ℕ) (size : ℚ) : GenState :=
  subdivideTetrahedron ⟨size, size, size⟩ ⟨size, -size, -size⟩
    ⟨-size, size, -size⟩ ⟨-size, -size, size⟩ level emptyState

/-- The 8 corners of the axis-aligned cube of side `2*halfSide` centered at
`center`, in the order the source lists them. -/
def cubeCorners (center : Vec3) (halfSide : ℚ) : List Vec3 :=
  [⟨center.x - halfSide, center.y - halfSide, center.z + halfSide⟩,
   ⟨center.x + halfSide, center.y - halfSide, center.z + halfSide⟩,
   ⟨center.x + halfSide, center.y + halfSide, center.z + halfSide⟩,
   ⟨center.x - halfSide, center.y + halfSide, center.z + halfSide⟩,
   ⟨center.x - halfSide, center.y - halfSide, center.z - halfSide⟩,
   ⟨center.x + halfSide, center.y - halfSide, center.z - halfSide⟩,
   ⟨center.x + halfSide, center.y + halfSide, center.z - halfSide⟩,
   ⟨center.x - halfSide, center.y + halfSide, center.z - halfSide⟩]

/-- The fixed corner-to-face table of the cube base case (two triangles per
face: front, back, top, bottom, left, right), reading the welded index
list `idx` by position (out-of-range reads cannot occur: `idx` has 8
entries). -/
def cubeFacesData (idx : List ℕ) : List (ℕ × ℕ × ℕ) :=
  [(idx.getD 0 0, idx.getD 1 0, idx.getD 2 0), (idx.getD 0 0, idx.getD 2 0, idx.getD 3 0),
   (idx.getD 4 0, idx.getD 7 0, idx.getD 6 0), (idx.getD 4 0, idx.getD 6 0, idx.getD 5 0),
   (idx.getD 3 0, idx.getD 2 0, idx.getD 6 0), (idx.getD 3 0, idx.getD 6 0, idx.getD 7 0),
   (idx.getD 0 0, idx.getD 4 0, idx.getD 5 0), (idx.getD 0 0, idx.getD 5 0, idx.getD 1 0),
   (idx.getD 0 0, idx.getD 3 0, idx.getD 7 0), (idx.getD 0 0, idx.getD 7 0, idx.getD 4 0),
   (idx.getD 1 0, idx.getD 5 0, idx.getD 6 0), (idx.getD 1 0, idx.getD 6 0, idx.getD 2 0)]

/-- The 27 grid indices `(i,j,k)` of the 3×3×3 partition, in the loop order
of the source (`i` outermost, `k` innermost, each running −1,0,1). -/
def gridTriples : List (ℤ × ℤ × ℤ) :=
  ([-1, 0, 1] : List ℤ).flatMap fun i =>
    ([-1, 0, 1] : List ℤ).flatMap fun j =>
      ([-1, 0, 1] : List ℤ).map fun k => (i, j, k)

/-- `zeroCount` of a grid index: how many of its components are zero. -/
def zeroCount (i j k : ℤ) : ℕ :=
  (if i = 0 then 1 else 0) + (if j = 0 then 1 else 0) + (if k = 0 then 1 else 0)

/-- `subdivideCube`: at level 0 weld the 8 cube corners and emit the fixed
12-triangle table; otherwise loop over the 3×3×3 grid, recursing into the
20 sub-cubes whose grid index has at most one zero component, with
center `center + (i,j,k)·(sideLength/3)` and side `sideLength/3`. -/
def subdivideCube (center : Vec3) (sideLength : ℚ) (level : ℕ)
    (s : GenState) : GenState :=
  match level with
  | 0 =>
    let halfSide := sideLength / 2
    let r := addUniqueVertices (cubeCorners center halfSide) s
    pushFaces (cubeFacesData r.1) r.2
  | n + 1 =>
    let newSideLength := sideLength / 3
    gridTriples.foldl
      (fun acc t =>
        if zeroCount t.1 t.2.1 t.2.2 < 2 then
          subdivideCube
            (center.add ⟨t.1 * newSideLength, t.2.1 * newSideLength, t.2.2 * newSideLength⟩)
            newSideLength n acc
        else acc)
      s

/-- `generateMengerSponge(level, size)`. -/
def generateMengerSponge (level : ℕ) (size : ℚ) : GenState :=
  subdivideCube ⟨0, 0, 0⟩ size level emptyState

/-- The 6 axis vertices of the octahedron of the given scale at `center`,
in source order: top, bottom, +x, −x, +z, −z. -/
def octVertices (center : Vec3) (scale : ℚ) : List Vec3 :=
  [⟨center.x, center.y + scale, center.z⟩,
   ⟨center.x, center.y - scale, center.z⟩,
   ⟨center.x + scale, center.y, center.z⟩,
   ⟨center.x - scale, center.y, center.z⟩,
   ⟨center.x, center.y, center.z + scale⟩,
   ⟨center.x, center.y, center.z - scale⟩]

/-- The fixed winding table of the octahedron base case: four top-pyramid
faces from the +y apex, four bottom-pyramid faces from the −y apex. -/
def octFacesData (idx : List ℕ) : List (ℕ × ℕ × ℕ) :=
  [(idx.getD 0 0, idx.getD 4 0, idx.getD 2 0), (idx.getD 0 0, idx.getD 2 0, idx.getD 5 0),
   (idx.getD 0 0, idx.getD 5 0, idx.getD 3 0), (idx.getD 0 0, idx.getD 3 0, idx.getD 4 0),
   (idx.getD 1 0, idx.getD 2 0, idx.getD 4 0), (idx.getD 1 0, idx.getD 5 0, idx.getD 2 0),
   (idx.getD 1 0, idx.getD 3 0, idx.getD 5 0), (idx.getD 1 0, idx.getD 4 0, idx.getD 3 0)]

/-- The six absolute centers `center ± newScale` along each axis that the
octahedron recursion descends into, in source order. -/
def octSubCenters (center : Vec3) (newScale : ℚ) : List Vec3 :=
  [⟨center.x, center.y + newScale, center.z⟩,
   ⟨center.x, center.y - newScale, center.z⟩,
   ⟨center.x + newScale, center.y, center.z⟩,
   ⟨center.x - newScale, center.y, center.z⟩,
   ⟨center.x, center.y, center.z + newScale⟩,
   ⟨center.x, center.y, center.z - newScale⟩]

/-- `subdivideOctahedron`: at level 0 weld the 6 axis vertices and emit the
fixed 8-face winding table; otherwise recurse into the six sub-octahedra
whose absolute centers are `center ± scale/2` along each axis, each center
used directly with scale `scale/2`. -/
def subdivideOctahedron (center : Vec3) (scale : ℚ) (level : ℕ)
    (s : GenState) : GenState :=
  match level with
  | 0 =>
    let r := addUniqueVertices (octVertices center scale) s
    pushFaces (octFacesData r.1) r.2
  | n + 1 =>
    let newScale := scale * (1/2)
    (octSubCenters center newScale).foldl
      (fun acc c => subdivideOctahedron c newScale n acc) s

/-- `generateSierpinskiOctahedron(level, size)`. -/
def generateSierpinskiOctahedron (level : ℕ) (size : ℚ) : GenState :=
  subdivideOctahedron ⟨0, 0, 0⟩ size level emptyState

/-- `FractalType`: the three fractal families. -/
inductive FractalType where
  | sierpinskiTetrahedron
  | mengerSponge
  | sierpinskiOctahedron
deriving DecidableEq, Repr

/-- The generator dispatch performed by the caller (`App.tsx`): one
generation call per `(kind, level, size)`. -/
def generate (t : FractalType) (level : ℕ) (size : ℚ) : GenState :=
  match t with
  | .sierpinskiTetrahedron => generateSierpinskiTetrahedron level size
  | .mengerSponge => generateMengerSponge level size
  | .sierpinskiOctahedron => generateSierpinskiOctahedron level size

/-! ### Analysis definitions

Derived notions used to state and prove the specification claims: the
render-buffer mirror of a point list, the canonical shape of the weld map,
the generation invariant, face nondegeneracy, and the list of base cells a
recursive traversal visits. -/

/-- The flat render buffer a point list induces: three floats per vertex. -/
def flat3Q (l : List Vec3) : List ℚ :=
  match l with
  | [] => []
  | v :: rest => v.x :: v.y :: v.z :: flat3Q rest

/-- The flat index buffer a face list induces: three indices per face. -/
def flat3N (l : List Face) : List ℕ :=
  match l with
  | [] => []
  | f :: rest => f.v1 :: f.v2 :: f.v3 :: flat3N rest

/-- The canonical weld map of a point list starting at index `n`: one entry
per point, keyed by its quantized key, valued by its position. -/
def mapFor (vs : List Vec3) (n : ℕ) : List (VKey × ℕ) :=
  match vs with
  | [] => []
  | v :: rest => (quantKey v, n) :: mapFor rest (n + 1)

/-- The generation invariant: the flat buffers mirror the structured lists,
the weld map is exactly the canonical map of the stored points, stored
quantized keys are pairwise distinct, and every face index is in range. -/
def GenInv (s : GenState) : Prop :=
  s.bufferVertices = flat3Q s.exportVertices ∧
  s.bufferIndices = flat3N s.exportFaces ∧
  s.vertexMap = mapFor s.exportVertices 0 ∧
  (s.exportVertices.map quantKey).Nodup ∧
  ∀ f ∈ s.exportFaces, f.v1 < s.exportVertices.length ∧
    f.v2 < s.exportVertices.length ∧ f.v3 < s.exportVertices.length

/-- A face is nondegenerate when its three vertex indices are pairwise
distinct. -/
def Nondeg (f : Face) : Prop := f.v1 ≠ f.v2 ∧ f.v1 ≠ f.v3 ∧ f.v2 ≠ f.v3

/-- The corner lists of the base cells (level-0 tetrahedra) that
`subdivideTetrahedron` visits, in traversal order. -/
def tetraCells (p1 p2 p3 p4 : Vec3) (level : ℕ) : List (List Vec3) :=
  match level with
  | 0 => [[p1, p2, p3, p4]]
  | n + 1 =>
    let m12 := (p1.add p2).smul (1/2)
    let m13 := (p1.add p3).smul (1/2)
    let m14 := (p1.add p4).smul (1/2)
    let m23 := (p2.add p3).smul (1/2)
    let m24 := (p2.add p4).smul (1/2)
    let m34 := (p3.add p4).smul (1/2)
    tetraCells p1 m12 m13 m14 n ++ tetraCells m12 p2 m23 m24 n ++
      tetraCells m13 m23 p3 m34 n ++ tetraCells m14 m24 m34 p4 n

/-- The corner lists of the base cells (level-0 sub-cubes) that
`subdivideCube` visits, in traversal order. -/
def cubeCells (center : Vec3) (sideLength : ℚ) (level : ℕ) :
    List (List Vec3) :=
  match level with
  | 0 => [cubeCorners center (sideLength / 2)]
  | n + 1 =>
    (gridTriples.filter fun t => zeroCount t.1 t.2.1 t.2.2 < 2).flatMap fun t =>
      cubeCells
        (center.add
          ⟨t.1 * (sideLength / 3), t.2.1 * (sideLength / 3), t.2.2 * (sideLength / 3)⟩)
        (sideLength / 3) n

/-- The vertex lists of the base cells (level-0 octahedra) that
`subdivideOctahedron` visits, in traversal order. -/
def octCells (center : Vec3) (scale : ℚ) (level : ℕ) : List (List Vec3) :=
  match level with
  | 0 => [octVertices center scale]
  | n + 1 =>
    (octSubCenters center (scale * (1/2))).flatMap fun c =>
      octCells c (scale * (1/2)) n

/-- The base cells a whole generation call visits, per fractal kind. -/
def cellsOf (t : FractalType) (level : ℕ) (size : ℚ) : List (List Vec3) :=
  match t with
  | .sierpinskiTetrahedron =>
    tetraCells ⟨size, size, size⟩ ⟨size, -size, -size⟩
      ⟨-size, size, -size⟩ ⟨-size, -size, size⟩ level
  | .mengerSponge => cubeCells ⟨0, 0, 0⟩ size level
  | .sierpinskiOctahedron => octCells ⟨0, 0, 0⟩ size level

/-- The four face triples the tetrahedron base case emits, reading the
welded index list by position: winding `(1,3,2) (1,2,4) (1,4,3) (2,3,4)`. -/
def tetraFacesData (idx : List ℕ) : List (ℕ × ℕ × ℕ) :=
  [(idx.getD 0 0, idx.getD 2 0, idx.getD 1 0),
   (idx.getD 0 0, idx.getD 1 0, idx.getD 3 0),
   (idx.getD 0 0, idx.getD 3 0, idx.getD 2 0),
   (idx.getD 1 0, idx.getD 2 0, idx.getD 3 0)]

/-! ### Helper lemmas: flat buffers, canonical map, lookup -/

theorem flat3Q_append (l1 l2 : List Vec3) :
    flat3Q (l1 ++ l2) = flat3Q l1 ++ flat3Q l2 := by
  induction l1 with
  | nil => rfl
  | cons v rest ih => simp [flat3Q, ih]

theorem flat3Q_length (l : List Vec3) : (flat3Q l).length = 3 * l.length := by
  induction l with
  | nil => rfl
  | cons v rest ih => simp [flat3Q, ih]; omega

theorem flat3N_append (l1 l2 : List Face) :
    flat3N (l1 ++ l2) = flat3N l1 ++ flat3N l2 := by
  induction l1 with
  | nil => rfl
  | cons f rest ih => simp [flat3N, ih]

theorem flat3N_length (l : List Face) : (flat3N l).length = 3 * l.length := by
  induction l with
  | nil => rfl
  | cons f rest ih => simp [flat3N, ih]; omega

theorem flat3Q_getD (l : List Vec3) (i : ℕ) (h : i < l.length) :
    (flat3Q l).getD (3 * i) 0 = (l.getD i ⟨0, 0, 0⟩).x ∧
    (flat3Q l).getD (3 * i + 1) 0 = (l.getD i ⟨0, 0, 0⟩).y ∧
    (flat3Q l).getD (3 * i + 2) 0 = (l.getD i ⟨0, 0, 0⟩).z := by
  induction l generalizing i with
  | nil => simp at h
  | cons v rest ih =>
    cases i with
    | zero => simp [flat3Q]
    | succ j =>
      have h3 : 3 * (j + 1) = 3 * j + 3 := by omega
      have hj : j < rest.length := by simp at h; omega
      have := ih j hj
      simp only [flat3Q, h3, List.getD_cons_succ, List.getD]
      simpa [List.getD] using this

theorem flat3N_getD (l : List Face) (i : ℕ) (h : i < l.length) :
    (flat3N l).getD (3 * i) 0 = (l.getD i ⟨0, 0, 0⟩).v1 ∧
    (flat3N l).getD (3 * i + 1) 0 = (l.getD i ⟨0, 0, 0⟩).v2 ∧
    (flat3N l).getD (3 * i + 2) 0 = (l.getD i ⟨0, 0, 0⟩).v3 := by
  induction l generalizing i with
  | nil => simp at h
  | cons f rest ih =>
    cases i with
    | zero => simp [flat3N]
    | succ j =>
      have h3 : 3 * (j + 1) = 3 * j + 3 := by omega
      have hj : j < rest.length := by simp at h; omega
      have := ih j hj
      simp only [flat3N, h3, List.getD_cons_succ, List.getD]
      simpa [List.getD] using this

theorem mapFor_append (l1 l2 : List Vec3) (n : ℕ) :
    mapFor (l1 ++ l2) n = mapFor l1 n ++ mapFor l2 (n + l1.length) := by
  induction l1 generalizing n with
  | nil => simp [mapFor]
  | cons v rest ih => simp [mapFor, ih]; ring_nf

theorem mapFor_keys (vs : List Vec3) (n : ℕ) :
    (mapFor vs n).map Prod.fst = vs.map quantKey := by
  induction vs generalizing n with
  | nil => rfl
  | cons v rest ih => simp [mapFor, ih]

theorem mem_mapFor {vs : List Vec3} {n : ℕ} {k : VKey} {i : ℕ}
    (h : (k, i) ∈ mapFor vs n) :
    ∃ j, ∃ hj : j < vs.length, i = n + j ∧ quantKey (vs.get ⟨j, hj⟩) = k := by
  induction vs generalizing n with
  | nil => simp [mapFor] at h
  | cons v rest ih =>
    simp only [mapFor, List.mem_cons] at h
    rcases h with h | h
    · refine ⟨0, by simp, ?_, ?_⟩
      · have := congrArg Prod.snd h
        simpa using this
      · have := congrArg Prod.fst h
        simpa using this.symm
    · obtain ⟨j, hj, hi, hk⟩ := ih h
      exact ⟨j + 1, by simpa using hj, by omega, hk⟩

theorem lookupKey_none_iff (m : List (VKey × ℕ)) (k : VKey) :
    lookupKey m k = none ↔ ∀ e ∈ m, e.1 ≠ k := by
  induction m with
  | nil => simp [lookupKey]
  | cons e rest ih =>
    by_cases hek : e.1 = k
    · simp [lookupKey, hek]
    · simp [lookupKey, hek, ih]

theorem lookupKey_some_mem {m : List (VKey × ℕ)} {k : VKey} {i : ℕ}
    (h : lookupKey m k = some i) : (k, i) ∈ m := by
  induction m with
  | nil => simp [lookupKey] at h
  | cons e rest ih =>
    by_cases hek : e.1 = k
    · simp [lookupKey, hek] at h
      cases e
      simp_all
    · simp [lookupKey, hek] at h
      exact List.mem_cons_of_mem _ (ih h)

theorem lookupKey_append_of_some {m m2 : List (VKey × ℕ)} {k : VKey} {i : ℕ}
    (h : lookupKey m k = some i) : lookupKey (m ++ m2) k = some i := by
  induction m with
  | nil => simp [lookupKey] at h
  | cons e rest ih =>
    by_cases hek : e.1 = k
    · simp [lookupKey, hek] at h ⊢; exact h
    · simp [lookupKey, hek] at h ⊢; exact ih h

theorem lookupKey_append_of_none {m m2 : List (VKey × ℕ)} {k : VKey}
    (h : lookupKey m k = none) : lookupKey (m ++ m2) k = lookupKey m2 k := by
  induction m with
  | nil => simp
  | cons e rest ih =>
    by_cases hek : e.1 = k
    · simp [lookupKey, hek] at h
    · simp [lookupKey, hek] at h ⊢; exact ih h

/-! ### Helper lemmas: the weld operation -/

theorem addUniqueVertex_found {v : Vec3} {s : GenState} {i : ℕ}
    (h : lookupKey s.vertexMap (quantKey v) = some i) :
    addUniqueVertex v s = (i, s) := by
  simp [addUniqueVertex, h]

theorem addUniqueVertex_new {v : Vec3} {s : GenState}
    (h : lookupKey s.vertexMap (quantKey v) = none) :
    addUniqueVertex v s =
      (s.exportVertices.length,
        { s with
          bufferVertices := s.bufferVertices ++ [v.x, v.y, v.z],
          exportVertices := s.exportVertices ++ [v],
          vertexMap :=
            s.vertexMap ++ [(quantKey v, s.exportVertices.length)] }) := by
  simp [addUniqueVertex, h]

theorem key_not_mem_of_none {v : Vec3} {s : GenState} (hm : GenInv s)
    (h : lookupKey s.vertexMap (quantKey v) = none) :
    quantKey v ∉ s.exportVertices.map quantKey := by
  obtain ⟨-, -, hmap, -, -⟩ := hm
  rw [hmap] at h
  rw [lookupKey_none_iff] at h
  intro hmem
  rw [← mapFor_keys s.exportVertices 0] at hmem
  obtain ⟨e, he, hek⟩ := List.mem_map.mp hmem
  exact h e he hek

theorem key_none_of_not_mem {v : Vec3} {s : GenState} (hm : GenInv s)
    (h : quantKey v ∉ s.exportVertices.map quantKey) :
    lookupKey s.vertexMap (quantKey v) = none := by
  obtain ⟨-, -, hmap, -, -⟩ := hm
  rw [hmap, lookupKey_none_iff]
  intro e he hek
  apply h
  rw [← mapFor_keys s.exportVertices 0]
  exact hek ▸ List.mem_map_of_mem Prod.fst he

theorem lookup_inv_some {s : GenState} {k : VKey} {i : ℕ} (hm : GenInv s)
    (hk : lookupKey s.vertexMap k = some i) :
    ∃ hi : i < s.exportVertices.length,
      quantKey (s.exportVertices.get ⟨i, hi⟩) = k := by
  obtain ⟨-, -, hmap, -, -⟩ := hm
  rw [hmap] at hk
  obtain ⟨j, hj, hij, hq⟩ := mem_mapFor (lookupKey_some_mem hk)
  have : i = j := by omega
  subst this
  exact ⟨hj, hq⟩

theorem lookup_inj {s : GenState} {k1 k2 : VKey} {i1 i2 : ℕ} (hm : GenInv s)
    (h1 : lookupKey s.vertexMap k1 = some i1)
    (h2 : lookupKey s.vertexMap k2 = some i2) (hne : k1 ≠ k2) : i1 ≠ i2 := by
  obtain ⟨hi1, hq1⟩ := lookup_inv_some hm h1
  obtain ⟨hi2, hq2⟩ := lookup_inv_some hm h2
  intro he
  subst he
  exact hne (hq1.symm.trans hq2)

theorem auv_ok (v : Vec3) (s : GenState) (h : GenInv s) :
    GenInv (addUniqueVertex v s).2 ∧
    (addUniqueVertex v s).2.exportFaces = s.exportFaces ∧
    s.exportVertices.length ≤ (addUniqueVertex v s).2.exportVertices.length ∧
    (addUniqueVertex v s).1 < (addUniqueVertex v s).2.exportVertices.length ∧
    lookupKey (addUniqueVertex v s).2.vertexMap (quantKey v) =
      some (addUniqueVertex v s).1 ∧
    ∀ k i, lookupKey s.vertexMap k = some i →
      lookupKey (addUniqueVertex v s).2.vertexMap k = some i := by
  cases hl : lookupKey s.vertexMap (quantKey v) with
  | some i =>
    rw [addUniqueVertex_found hl]
    obtain ⟨hi, -⟩ := lookup_inv_some h hl
    exact ⟨h, rfl, le_refl _, hi, hl, fun _ _ hk => hk⟩
  | none =>
    have hfresh := key_not_mem_of_none h hl
    obtain ⟨hbv, hbi, hmap, hnd, hfb⟩ := h
    rw [addUniqueVertex_new hl]
    refine ⟨⟨?_, ?_, ?_, ?_, ?_⟩, rfl, ?_, ?_, ?_, ?_⟩
    · simpa [flat3Q_append, flat3Q] using hbv
    · exact hbi
    · simp only [mapFor_append, mapFor]
      rw [hmap]
      simp
    · simp only [List.map_append, List.map_cons, List.map_nil]
      rw [List.nodup_append]
      exact ⟨hnd, List.nodup_singleton _, by simpa using hfresh⟩
    · intro f hf
      have := hfb f hf
      simp only [List.length_append, List.length_cons, List.length_nil]
      omega
    · simp
    · simp
    · rw [hmap] at hl ⊢
      rw [lookupKey_append_of_none hl]
      simp [lookupKey]
    · intro k i hk
      exact lookupKey_append_of_some hk

theorem auvs_ok (vs : List Vec3) (s : GenState) (h : GenInv s) :
    GenInv (addUniqueVertices vs s).2 ∧
    (addUniqueVertices vs s).2.exportFaces = s.exportFaces ∧
    s.exportVertices.length ≤ (addUniqueVertices vs s).2.exportVertices.length ∧
    (addUniqueVertices vs s).1.length = vs.length ∧
    (∀ i ∈ (addUniqueVertices vs s).1,
      i < (addUniqueVertices vs s).2.exportVertices.length) ∧
    (∀ k i, lookupKey s.vertexMap k = some i →
      lookupKey (addUniqueVertices vs s).2.vertexMap k = some i) ∧
    ∀ j, j < vs.length →
      lookupKey (addUniqueVertices vs s).2.vertexMap
          (quantKey (vs.getD j ⟨0, 0, 0⟩)) =
        some ((addUniqueVertices vs s).1.getD j 0) := by
  induction vs generalizing s with
  | nil =>
    exact ⟨h, rfl, le_refl _, rfl, by simp [addUniqueVertices],
      fun _ _ hk => hk, by simp [addUniqueVertices]⟩
  | cons v rest ih =>
    obtain ⟨h1, h2, h3, h4, h5, h6⟩ := auv_ok v s h
    obtain ⟨g1, g2, g3, g4, g5, g6, g7⟩ := ih (addUniqueVertex v s).2 h1
    simp only [addUniqueVertices]
    refine ⟨g1, g2.trans h2, le_trans h3 g3, by simpa using g4, ?_, ?_, ?_⟩
    · intro i hi
      rcases List.mem_cons.mp hi with hi | hi
      · exact hi ▸ lt_of_lt_of_le h4 g3
      · exact g5 i hi
    · intro k i hk
      exact g6 k i (h6 k i hk)
    · intro j hj
      cases j with
      | zero => simpa using g6 _ _ h5
      | succ j2 => simpa using g7 j2 (by simpa using hj)

theorem auvs_idx_inj (vs : List Vec3) (s : GenState) (h : GenInv s)
    (hnd : (vs.map quantKey).Nodup) :
    ∀ a b, a < vs.length → b < vs.length → a ≠ b →
      (addUniqueVertices vs s).1.getD a 0 ≠
        (addUniqueVertices vs s).1.getD b 0 := by
  intro a b ha hb hab
  obtain ⟨g1, -, -, -, -, -, g7⟩ := auvs_ok vs s h
  have la := g7 a ha
  have lb := g7 b hb
  have hkne : quantKey (vs.getD a ⟨0, 0, 0⟩) ≠ quantKey (vs.getD b ⟨0, 0, 0⟩) := by
    have hga : (vs.map quantKey).getD a default = quantKey (vs.getD a ⟨0, 0, 0⟩) := by
      rw [List.getD_eq_getElem?_getD, List.getD_eq_getElem?_getD,
        List.getElem?_map]
      simp [List.getElem?_eq_getElem ha]
    have hgb : (vs.map quantKey).getD b default = quantKey (vs.getD b ⟨0, 0, 0⟩) := by
      rw [List.getD_eq_getElem?_getD, List.getD_eq_getElem?_getD,
        List.getElem?_map]
      simp [List.getElem?_eq_getElem hb]
    intro he
    have : (vs.map quantKey).getD a default = (vs.map quantKey).getD b default := by
      rw [hga, hgb, he]
    have hma : a < (vs.map quantKey).length := by simpa using ha
    have hmb : b < (vs.map quantKey).length := by simpa using hb
    rw [List.getD_eq_getElem _ _ hma, List.getD_eq_getElem _ _ hmb] at this
    exact hab (List.Nodup.getElem_inj_iff hnd |>.mp this)
  exact lookup_inj g1 la lb hkne

theorem auvs_all_new (vs : List Vec3) (s : GenState) (h : GenInv s)
    (hfresh : ∀ v ∈ vs, quantKey v ∉ s.exportVertices.map quantKey)
    (hnd : (vs.map quantKey).Nodup) :
    (addUniqueVertices vs s).2.exportVertices = s.exportVertices ++ vs := by
  induction vs generalizing s with
  | nil => simp [addUniqueVertices]
  | cons v rest ih =>
    have hl : lookupKey s.vertexMap (quantKey v) = none :=
      key_none_of_not_mem h (hfresh v (List.mem_cons_self v rest))
    obtain ⟨h1, -, -, -, -, -⟩ := auv_ok v s h
    simp only [addUniqueVertices]
    have hev : (addUniqueVertex v s).2.exportVertices =
        s.exportVertices ++ [v] := by
      rw [addUniqueVertex_new hl]
    rw [ih (addUniqueVertex v s).2 h1 ?_ (by simpa using hnd.of_cons), hev]
    · rw [List.append_assoc]
      rfl
    · intro w hw
      rw [hev]
      simp only [List.map_append, List.map_cons, List.map_nil, List.mem_append,
        List.mem_cons, List.not_mem_nil, or_false]
      rintro (hmem | hmem)
      · exact hfresh w (List.mem_cons_of_mem v hw) hmem
      · have hnd1 : quantKey v ∉ List.map quantKey rest := by
          simp only [List.map_cons, List.nodup_cons] at hnd
          exact hnd.1
        exact hnd1 (hmem ▸ List.mem_map_of_mem quantKey hw)

/-! ### Helper lemmas: face emission and fold preservation -/

theorem pushFace_ok (a b c : ℕ) (s : GenState) (h : GenInv s)
    (ha : a < s.exportVertices.length) (hb : b < s.exportVertices.length)
    (hc : c < s.exportVertices.length) :
    GenInv (pushFace a b c s) ∧
    (pushFace a b c s).exportVertices = s.exportVertices ∧
    (pushFace a b c s).vertexMap = s.vertexMap ∧
    (pushFace a b c s).exportFaces = s.exportFaces ++ [⟨a, b, c⟩] := by
  obtain ⟨hbv, hbi, hmap, hnd, hfb⟩ := h
  refine ⟨⟨hbv, ?_, hmap, hnd, ?_⟩, rfl, rfl, rfl⟩
  · simp only [pushFace, flat3N_append, flat3N]
    rw [hbi]
  · intro f hf
    simp only [pushFace, List.mem_append, List.mem_cons, List.not_mem_nil,
      or_false] at hf
    rcases hf with hf | hf
    · exact hfb f hf
    · subst hf
      exact ⟨ha, hb, hc⟩

theorem pushFaces_ok (fs : List (ℕ × ℕ × ℕ)) (s : GenState) (h : GenInv s)
    (hfs : ∀ p ∈ fs, p.1 < s.exportVertices.length ∧
      p.2.1 < s.exportVertices.length ∧ p.2.2 < s.exportVertices.length) :
    GenInv (pushFaces fs s) ∧
    (pushFaces fs s).exportVertices = s.exportVertices ∧
    (pushFaces fs s).vertexMap = s.vertexMap ∧
    (pushFaces fs s).exportFaces =
      s.exportFaces ++ fs.map (fun p => ⟨p.1, p.2.1, p.2.2⟩) := by
  induction fs generalizing s with
  | nil => exact ⟨h, rfl, rfl, by simp [pushFaces]⟩
  | cons p rest ih =>
    obtain ⟨hp1, hp2, hp3⟩ := hfs p (List.mem_cons_self p rest)
    obtain ⟨k1, k2, k3, k4⟩ := pushFace_ok p.1 p.2.1 p.2.2 s h hp1 hp2 hp3
    have hstep : pushFaces (p :: rest) s =
        pushFaces rest (pushFace p.1 p.2.1 p.2.2 s) := rfl
    have hnext : ∀ q ∈ rest, q.1 < (pushFace p.1 p.2.1 p.2.2 s).exportVertices.length ∧
        q.2.1 < (pushFace p.1 p.2.1 p.2.2 s).exportVertices.length ∧
        q.2.2 < (pushFace p.1 p.2.1 p.2.2 s).exportVertices.length := by
      intro q hq
      rw [k2]
      exact hfs q (List.mem_cons_of_mem p hq)
    obtain ⟨g1, g2, g3, g4⟩ := ih (pushFace p.1 p.2.1 p.2.2 s) k1 hnext
    rw [hstep]
    refine ⟨g1, g2.trans k2, g3.trans k3, ?_⟩
    rw [g4, k4]
    simp

theorem foldl_pres {α : Type} (P : GenState → Prop) (f : GenState → α → GenState)
    (l : List α) (hf : ∀ a ∈ l, ∀ s, P s → P (f s a)) :
    ∀ s, P s → P (l.foldl f s) := by
  induction l with
  | nil => exact fun s hs => hs
  | cons a rest ih =>
    intro s hs
    exact ih (fun b hb t ht => hf b (List.mem_cons_of_mem a hb) t ht) _
      (hf a (List.mem_cons_self a rest) s hs)

theorem subdivideTetrahedron_zero (p1 p2 p3 p4 : Vec3) (s : GenState) :
    subdivideTetrahedron p1 p2 p3 p4 0 s =
      pushFaces (tetraFacesData (addUniqueVertices [p1, p2, p3, p4] s).1)
        (addUniqueVertices [p1, p2, p3, p4] s).2 := rfl

theorem getD_mem_of_lt {l : List ℕ} {i : ℕ} (h : i < l.length) :
    l.getD i 0 ∈ l := by
  rw [List.getD_eq_getElem _ _ h]
  exact List.getElem_mem h

theorem subdivideCube_zero (center : Vec3) (sideLength : ℚ) (s : GenState) :
    subdivideCube center sideLength 0 s =
      pushFaces
        (cubeFacesData
          (addUniqueVertices (cubeCorners center (sideLength / 2)) s).1)
        (addUniqueVertices (cubeCorners center (sideLength / 2)) s).2 := rfl

theorem subdivideOctahedron_zero (center : Vec3) (scale : ℚ) (s : GenState) :
    subdivideOctahedron center scale 0 s =
      pushFaces (octFacesData (addUniqueVertices (octVertices center scale) s).1)
        (addUniqueVertices (octVertices center scale) s).2 := rfl

theorem tetraFacesData_bound (idx : List ℕ) (n : ℕ) (hlen : idx.length = 4)
    (hb : ∀ i ∈ idx, i < n) :
    ∀ p ∈ tetraFacesData idx, p.1 < n ∧ p.2.1 < n ∧ p.2.2 < n := by
  have hdm : ∀ i, i < 4 → idx.getD i 0 < n := fun i hi =>
    hb _ (getD_mem_of_lt (by omega))
  intro p hp
  simp only [tetraFacesData, List.mem_cons, List.not_mem_nil, or_false] at hp
  rcases hp with rfl | rfl | rfl | rfl
  · exact ⟨hdm 0 (by omega), hdm 2 (by omega), hdm 1 (by omega)⟩
  · exact ⟨hdm 0 (by omega), hdm 1 (by omega), hdm 3 (by omega)⟩
  · exact ⟨hdm 0 (by omega), hdm 3 (by omega), hdm 2 (by omega)⟩
  · exact ⟨hdm 1 (by omega), hdm 2 (by omega), hdm 3 (by omega)⟩

theorem cubeFacesData_bound (idx : List ℕ) (n : ℕ) (hlen : idx.length = 8)
    (hb : ∀ i ∈ idx, i < n) :
    ∀ p ∈ cubeFacesData idx, p.1 < n ∧ p.2.1 < n ∧ p.2.2 < n := by
  have hdm : ∀ i, i < 8 → idx.getD i 0 < n := fun i hi =>
    hb _ (getD_mem_of_lt (by omega))
  intro p hp
  simp only [cubeFacesData, List.mem_cons, List.not_mem_nil, or_false] at hp
  rcases hp with rfl | rfl | rfl | rfl | rfl | rfl | rfl | rfl | rfl | rfl | rfl | rfl
  · exact ⟨hdm 0 (by omega), hdm 1 (by omega), hdm 2 (by omega)⟩
  · exact ⟨hdm 0 (by omega), hdm 2 (by omega), hdm 3 (by omega)⟩
  · exact ⟨hdm 4 (by omega), hdm 7 (by omega), hdm 6 (by omega)⟩
  · exact ⟨hdm 4 (by omega), hdm 6 (by omega), hdm 5 (by omega)⟩
  · exact ⟨hdm 3 (by omega), hdm 2 (by omega), hdm 6 (by omega)⟩
  · exact ⟨hdm 3 (by omega), hdm 6 (by omega), hdm 7 (by omega)⟩
  · exact ⟨hdm 0 (by omega), hdm 4 (by omega), hdm 5 (by omega)⟩
  · exact ⟨hdm 0 (by omega), hdm 5 (by omega), hdm 1 (by omega)⟩
  · exact ⟨hdm 0 (by omega), hdm 3 (by omega), hdm 7 (by omega)⟩
  · exact ⟨hdm 0 (by omega), hdm 7 (by omega), hdm 4 (by omega)⟩
  · exact ⟨hdm 1 (by omega), hdm 5 (by omega), hdm 6 (by omega)⟩
  · exact ⟨hdm 1 (by omega), hdm 6 (by omega), hdm 2 (by omega)⟩

theorem octFacesData_bound (idx : List ℕ) (n : ℕ) (hlen : idx.length = 6)
    (hb : ∀ i ∈ idx, i < n) :
    ∀ p ∈ octFacesData idx, p.1 < n ∧ p.2.1 < n ∧ p.2.2 < n := by
  have hdm : ∀ i, i < 6 → idx.getD i 0 < n := fun i hi =>
    hb _ (getD_mem_of_lt (by omega))
  intro p hp
  simp only [octFacesData, List.mem_cons, List.not_mem_nil, or_false] at hp
  rcases hp with rfl | rfl | rfl | rfl | rfl | rfl | rfl | rfl
  · exact ⟨hdm 0 (by omega), hdm 4 (by omega), hdm 2 (by omega)⟩
  · exact ⟨hdm 0 (by omega), hdm 2 (by omega), hdm 5 (by omega)⟩
  · exact ⟨hdm 0 (by omega), hdm 5 (by omega), hdm 3 (by omega)⟩
  · exact ⟨hdm 0 (by omega), hdm 3 (by omega), hdm 4 (by omega)⟩
  · exact ⟨hdm 1 (by omega), hdm 2 (by omega), hdm 4 (by omega)⟩
  · exact ⟨hdm 1 (by omega), hdm 5 (by omega), hdm 2 (by omega)⟩
  · exact ⟨hdm 1 (by omega), hdm 3 (by omega), hdm 5 (by omega)⟩
  · exact ⟨hdm 1 (by omega), hdm 4 (by omega), hdm 3 (by omega)⟩

theorem tetra_base_ok (p1 p2 p3 p4 : Vec3) (s : GenState) (h : GenInv s) :
    GenInv (subdivideTetrahedron p1 p2 p3 p4 0 s) ∧
    s.exportVertices.length ≤
      (subdivideTetrahedron p1 p2 p3 p4 0 s).exportVertices.length ∧
    (subdivideTetrahedron p1 p2 p3 p4 0 s).exportFaces.length =
      s.exportFaces.length + 4 ∧
    0 < (subdivideTetrahedron p1 p2 p3 p4 0 s).exportVertices.length := by
  rw [subdivideTetrahedron_zero]
  obtain ⟨g1, g2, g3, g4, g5, g6, g7⟩ := auvs_ok [p1, p2, p3, p4] s h
  have hlen4 : (addUniqueVertices [p1, p2, p3, p4] s).1.length = 4 := by
    simpa using g4
  obtain ⟨k1, k2, k3, k4⟩ :=
    pushFaces_ok _ _ g1 (tetraFacesData_bound _ _ hlen4 g5)
  refine ⟨k1, ?_, ?_, ?_⟩
  · rw [k2]
    exact g3
  · rw [k4, g2]
    simp [tetraFacesData]
  · rw [k2]
    exact lt_of_le_of_lt (Nat.zero_le _)
      (g5 _ (@getD_mem_of_lt (addUniqueVertices [p1, p2, p3, p4] s).1 0 (by omega)))

theorem cube_base_ok (center : Vec3) (sideLength : ℚ) (s : GenState)
    (h : GenInv s) :
    GenInv (subdivideCube center sideLength 0 s) ∧
    s.exportVertices.length ≤
      (subdivideCube center sideLength 0 s).exportVertices.length ∧
    (subdivideCube center sideLength 0 s).exportFaces.length =
      s.exportFaces.length + 12 ∧
    0 < (subdivideCube center sideLength 0 s).exportVertices.length := by
  rw [subdivideCube_zero]
  obtain ⟨g1, g2, g3, g4, g5, g6, g7⟩ :=
    auvs_ok (cubeCorners center (sideLength / 2)) s h
  have hlen8 :
      (addUniqueVertices (cubeCorners center (sideLength / 2)) s).1.length = 8 := by
    rw [g4]
    simp [cubeCorners]
  obtain ⟨k1, k2, k3, k4⟩ :=
    pushFaces_ok _ _ g1 (cubeFacesData_bound _ _ hlen8 g5)
  refine ⟨k1, ?_, ?_, ?_⟩
  · rw [k2]
    exact g3
  · rw [k4, g2]
    simp [cubeFacesData]
  · rw [k2]
    exact lt_of_le_of_lt (Nat.zero_le _)
      (g5 _ (@getD_mem_of_lt
        (addUniqueVertices (cubeCorners center (sideLength / 2)) s).1 0 (by omega)))

theorem oct_base_ok (center : Vec3) (scale : ℚ) (s : GenState) (h : GenInv s) :
    GenInv (subdivideOctahedron center scale 0 s) ∧
    s.exportVertices.length ≤
      (subdivideOctahedron center scale 0 s).exportVertices.length ∧
    (subdivideOctahedron center scale 0 s).exportFaces.length =
      s.exportFaces.length + 8 ∧
    0 < (subdivideOctahedron center scale 0 s).exportVertices.length := by
  rw [subdivideOctahedron_zero]
  obtain ⟨g1, g2, g3, g4, g5, g6, g7⟩ :=
    auvs_ok (octVertices center scale) s h
  have hlen6 :
      (addUniqueVertices (octVertices center scale) s).1.length = 6 := by
    rw [g4]
    simp [octVertices]
  obtain ⟨k1, k2, k3, k4⟩ :=
    pushFaces_ok _ _ g1 (octFacesData_bound _ _ hlen6 g5)
  refine ⟨k1, ?_, ?_, ?_⟩
  · rw [k2]
    exact g3
  · rw [k4, g2]
    simp [octFacesData]
  · rw [k2]
    exact lt_of_le_of_lt (Nat.zero_le _)
      (g5 _ (@getD_mem_of_lt
        (addUniqueVertices (octVertices center scale) s).1 0 (by omega)))

theorem gridTriples_eq :
    gridTriples =
      [(-1, -1, -1), (-1, -1, 0), (-1, -1, 1), (-1, 0, -1), (-1, 0, 0),
       (-1, 0, 1), (-1, 1, -1), (-1, 1, 0), (-1, 1, 1), (0, -1, -1),
       (0, -1, 0), (0, -1, 1), (0, 0, -1), (0, 0, 0), (0, 0, 1), (0, 1, -1),
       (0, 1, 0), (0, 1, 1), (1, -1, -1), (1, -1, 0), (1, -1, 1), (1, 0, -1),
       (1, 0, 0), (1, 0, 1), (1, 1, -1), (1, 1, 0), (1, 1, 1)] := rfl

theorem subdivideTetrahedron_ok (level : ℕ) :
    ∀ (p1 p2 p3 p4 : Vec3) (s : GenState), GenInv s →
    GenInv (subdivideTetrahedron p1 p2 p3 p4 level s) ∧
    s.exportVertices.length ≤
      (subdivideTetrahedron p1 p2 p3 p4 level s).exportVertices.length ∧
    s.exportFaces.length <
      (subdivideTetrahedron p1 p2 p3 p4 level s).exportFaces.length ∧
    0 < (subdivideTetrahedron p1 p2 p3 p4 level s).exportVertices.length := by
  induction level with
  | zero =>
    intro p1 p2 p3 p4 s h
    obtain ⟨a1, a2, a3, a4⟩ := tetra_base_ok p1 p2 p3 p4 s h
    exact ⟨a1, a2, by omega, a4⟩
  | succ n ih =>
    intro p1 p2 p3 p4 s h
    simp only [subdivideTetrahedron]
    obtain ⟨a1, a2, a3, a4⟩ := ih p1 ((p1.add p2).smul (1/2))
      ((p1.add p3).smul (1/2)) ((p1.add p4).smul (1/2)) s h
    obtain ⟨b1, b2, b3, b4⟩ := ih ((p1.add p2).smul (1/2)) p2
      ((p2.add p3).smul (1/2)) ((p2.add p4).smul (1/2)) _ a1
    obtain ⟨c1, c2, c3, c4⟩ := ih ((p1.add p3).smul (1/2))
      ((p2.add p3).smul (1/2)) p3 ((p3.add p4).smul (1/2)) _ b1
    obtain ⟨d1, d2, d3, d4⟩ := ih ((p1.add p4).smul (1/2))
      ((p2.add p4).smul (1/2)) ((p3.add p4).smul (1/2)) p4 _ c1
    exact ⟨d1, by omega, by omega, d4⟩

theorem subdivideCube_ok (level : ℕ) :
    ∀ (center : Vec3) (sideLength : ℚ) (s : GenState), GenInv s →
    GenInv (subdivideCube center sideLength level s) ∧
    s.exportVertices.length ≤
      (subdivideCube center sideLength level s).exportVertices.length ∧
    s.exportFaces.length <
      (subdivideCube center sideLength level s).exportFaces.length ∧
    0 < (subdivideCube center sideLength level s).exportVertices.length := by
  induction level with
  | zero =>
    intro center sideLength s h
    obtain ⟨a1, a2, a3, a4⟩ := cube_base_ok center sideLength s h
    exact ⟨a1, a2, by omega, a4⟩
  | succ n ih =>
    intro center sideLength s h
    simp only [subdivideCube]
    rw [gridTriples_eq]
    set F := fun (acc : GenState) (t : ℤ × ℤ × ℤ) =>
      if zeroCount t.1 t.2.1 t.2.2 < 2 then
        subdivideCube
          (center.add
            ⟨t.1 * (sideLength / 3), t.2.1 * (sideLength / 3),
              t.2.2 * (sideLength / 3)⟩)
          (sideLength / 3) n acc
      else acc with hF
    have hstep : ∀ (t : ℤ × ℤ × ℤ) (u : GenState), GenInv u →
        GenInv (F u t) ∧
        u.exportVertices.length ≤ (F u t).exportVertices.length ∧
        u.exportFaces.length ≤ (F u t).exportFaces.length := by
      intro t u hu
      rw [hF]
      by_cases hz : zeroCount t.1 t.2.1 t.2.2 < 2
      · simp only [if_pos hz]
        obtain ⟨q1, q2, q3, q4⟩ := ih _ _ u hu
        exact ⟨q1, q2, le_of_lt q3⟩
      · simp only [if_neg hz]
        exact ⟨hu, le_refl _, le_refl _⟩
    rw [List.foldl_cons]
    set c1 := subdivideCube
      (center.add
        ⟨(-1 : ℤ) * (sideLength / 3), (-1 : ℤ) * (sideLength / 3),
          (-1 : ℤ) * (sideLength / 3)⟩)
      (sideLength / 3) n s with hc1
    have hF0 : F s (-1, -1, -1) = c1 := by
      rw [hF, hc1]
      norm_num [zeroCount]
    obtain ⟨u1, u2, u3, u4⟩ := ih
      (center.add
        ⟨(-1 : ℤ) * (sideLength / 3), (-1 : ℤ) * (sideLength / 3),
          (-1 : ℤ) * (sideLength / 3)⟩)
      (sideLength / 3) s h
    rw [← hc1] at u1 u2 u3 u4
    have hfold := foldl_pres
      (fun u => GenInv u ∧
        c1.exportVertices.length ≤ u.exportVertices.length ∧
        c1.exportFaces.length ≤ u.exportFaces.length) F
      [(-1, -1, 0), (-1, -1, 1), (-1, 0, -1), (-1, 0, 0),
       (-1, 0, 1), (-1, 1, -1), (-1, 1, 0), (-1, 1, 1), (0, -1, -1),
       (0, -1, 0), (0, -1, 1), (0, 0, -1), (0, 0, 0), (0, 0, 1), (0, 1, -1),
       (0, 1, 0), (0, 1, 1), (1, -1, -1), (1, -1, 0), (1, -1, 1), (1, 0, -1),
       (1, 0, 0), (1, 0, 1), (1, 1, -1), (1, 1, 0), (1, 1, 1)]
      (fun t ht u hu => by
        obtain ⟨w1, w2, w3⟩ := hstep t u hu.1
        exact ⟨w1, le_trans hu.2.1 w2, le_trans hu.2.2 w3⟩)
      (F s (-1, -1, -1)) (by rw [hF0]; exact ⟨u1, le_refl _, le_refl _⟩)
    refine ⟨hfold.1, ?_, ?_, ?_⟩
    · exact le_trans u2 hfold.2.1
    · exact lt_of_lt_of_le u3 hfold.2.2
    · exact lt_of_lt_of_le u4 hfold.2.1

theorem subdivideOctahedron_ok (level : ℕ) :
    ∀ (center : Vec3) (scale : ℚ) (s : GenState), GenInv s →
    GenInv (subdivideOctahedron center scale level s) ∧
    s.exportVertices.length ≤
      (subdivideOctahedron center scale level s).exportVertices.length ∧
    s.exportFaces.length <
      (subdivideOctahedron center scale level s).exportFaces.length ∧
    0 < (subdivideOctahedron center scale level s).exportVertices.length := by
  induction level with
  | zero =>
    intro center scale s h
    obtain ⟨a1, a2, a3, a4⟩ := oct_base_ok center scale s h
    exact ⟨a1, a2, by omega, a4⟩
  | succ n ih =>
    intro center scale s h
    simp only [subdivideOctahedron, octSubCenters]
    rw [List.foldl_cons]
    set c1 := subdivideOctahedron
      ⟨center.x, center.y + scale * (1/2), center.z⟩ (scale * (1/2)) n s
      with hc1
    obtain ⟨u1, u2, u3, u4⟩ := ih
      ⟨center.x, center.y + scale * (1/2), center.z⟩ (scale * (1/2)) s h
    rw [← hc1] at u1 u2 u3 u4
    have hfold := foldl_pres
      (fun u => GenInv u ∧
        c1.exportVertices.length ≤ u.exportVertices.length ∧
        c1.exportFaces.length ≤ u.exportFaces.length)
      (fun acc c => subdivideOctahedron c (scale * (1/2)) n acc)
      [⟨center.x, center.y - scale * (1/2), center.z⟩,
       ⟨center.x + scale * (1/2), center.y, center.z⟩,
       ⟨center.x - scale * (1/2), center.y, center.z⟩,
       ⟨center.x, center.y, center.z + scale * (1/2)⟩,
       ⟨center.x, center.y, center.z - scale * (1/2)⟩]
      (fun c hc u hu => by
        obtain ⟨q1, q2, q3, q4⟩ := ih c (scale * (1/2)) u hu.1
        exact ⟨q1, le_trans hu.2.1 q2, le_trans hu.2.2 (le_of_lt q3)⟩)
      c1 ⟨u1, le_refl _, le_refl _⟩
    refine ⟨hfold.1, ?_, ?_, ?_⟩
    · exact le_trans u2 hfold.2.1
    · exact lt_of_lt_of_le u3 hfold.2.2
    · exact lt_of_lt_of_le u4 hfold.2.1

theorem emptyState_inv : GenInv emptyState := by
  refine ⟨rfl, rfl, rfl, List.nodup_nil, ?_⟩
  intro f hf
  simp [emptyState] at hf

theorem generate_ok (t : FractalType) (level : ℕ) (size : ℚ) :
    GenInv (generate t level size) ∧
    0 < (generate t level size).exportVertices.length ∧
    0 < (generate t level size).exportFaces.length := by
  cases t with
  | sierpinskiTetrahedron =>
    obtain ⟨a1, a2, a3, a4⟩ :=
      subdivideTetrahedron_ok level ⟨size, size, size⟩ ⟨size, -size, -size⟩
        ⟨-size, size, -size⟩ ⟨-size, -size, size⟩ emptyState emptyState_inv
    exact ⟨a1, a4, by simpa [emptyState] using a3⟩
  | mengerSponge =>
    obtain ⟨a1, a2, a3, a4⟩ :=
      subdivideCube_ok level ⟨0, 0, 0⟩ size emptyState emptyState_inv
    exact ⟨a1, a4, by simpa [emptyState] using a3⟩
  | sierpinskiOctahedron =>
    obtain ⟨a1, a2, a3, a4⟩ :=
      subdivideOctahedron_ok level ⟨0, 0, 0⟩ size emptyState emptyState_inv
    exact ⟨a1, a4, by simpa [emptyState] using a3⟩

/-! ### Helper lemmas: quantized keys of signed coordinates -/

theorem tofix5_pos {a : ℚ} (h : 0 < a) :
    tofix5 a = (false, ⌊a * 100000 + 1/2⌋) := by
  rw [tofix5, if_neg (not_lt.mpr (le_of_lt h))]

theorem tofix5_neg_pos {a : ℚ} (h : 0 < a) :
    tofix5 (-a) = (true, ⌊a * 100000 + 1/2⌋) := by
  rw [tofix5, if_pos (neg_lt_zero.mpr h), neg_neg]

theorem tofix5_zero : tofix5 0 = (false, 0) := by decide

/-! ### Helper lemmas: nondegeneracy of emitted faces -/

theorem tetraFacesData_nondeg (idx : List ℕ) (hlen : idx.length = 4)
    (hinj : ∀ a b, a < 4 → b < 4 → a ≠ b → idx.getD a 0 ≠ idx.getD b 0) :
    ∀ p ∈ tetraFacesData idx, Nondeg ⟨p.1, p.2.1, p.2.2⟩ := by
  intro p hp
  simp only [tetraFacesData, List.mem_cons, List.not_mem_nil, or_false] at hp
  rcases hp with rfl | rfl | rfl | rfl
  · exact ⟨hinj 0 2 (by omega) (by omega) (by omega), hinj 0 1 (by omega) (by omega) (by omega), hinj 2 1 (by omega) (by omega) (by omega)⟩
  · exact ⟨hinj 0 1 (by omega) (by omega) (by omega), hinj 0 3 (by omega) (by omega) (by omega), hinj 1 3 (by omega) (by omega) (by omega)⟩
  · exact ⟨hinj 0 3 (by omega) (by omega) (by omega), hinj 0 2 (by omega) (by omega) (by omega), hinj 3 2 (by omega) (by omega) (by omega)⟩
  · exact ⟨hinj 1 2 (by omega) (by omega) (by omega), hinj 1 3 (by omega) (by omega) (by omega), hinj 2 3 (by omega) (by omega) (by omega)⟩

theorem cubeFacesData_nondeg (idx : List ℕ) (hlen : idx.length = 8)
    (hinj : ∀ a b, a < 8 → b < 8 → a ≠ b → idx.getD a 0 ≠ idx.getD b 0) :
    ∀ p ∈ cubeFacesData idx, Nondeg ⟨p.1, p.2.1, p.2.2⟩ := by
  intro p hp
  simp only [cubeFacesData, List.mem_cons, List.not_mem_nil, or_false] at hp
  rcases hp with rfl | rfl | rfl | rfl | rfl | rfl | rfl | rfl | rfl | rfl | rfl | rfl
  · exact ⟨hinj 0 1 (by omega) (by omega) (by omega), hinj 0 2 (by omega) (by omega) (by omega), hinj 1 2 (by omega) (by omega) (by omega)⟩
  · exact ⟨hinj 0 2 (by omega) (by omega) (by omega), hinj 0 3 (by omega) (by omega) (by omega), hinj 2 3 (by omega) (by omega) (by omega)⟩
  · exact ⟨hinj 4 7 (by omega) (by omega) (by omega), hinj 4 6 (by omega) (by omega) (by omega), hinj 7 6 (by omega) (by omega) (by omega)⟩
  · exact ⟨hinj 4 6 (by omega) (by omega) (by omega), hinj 4 5 (by omega) (by omega) (by omega), hinj 6 5 (by omega) (by omega) (by omega)⟩
  · exact ⟨hinj 3 2 (by omega) (by omega) (by omega), hinj 3 6 (by omega) (by omega) (by omega), hinj 2 6 (by omega) (by omega) (by omega)⟩
  · exact ⟨hinj 3 6 (by omega) (by omega) (by omega), hinj 3 7 (by omega) (by omega) (by omega), hinj 6 7 (by omega) (by omega) (by omega)⟩
  · exact ⟨hinj 0 4 (by omega) (by omega) (by omega), hinj 0 5 (by omega) (by omega) (by omega), hinj 4 5 (by omega) (by omega) (by omega)⟩
  · exact ⟨hinj 0 5 (by omega) (by omega) (by omega), hinj 0 1 (by omega) (by omega) (by omega), hinj 5 1 (by omega) (by omega) (by omega)⟩
  · exact ⟨hinj 0 3 (by omega) (by omega) (by omega), hinj 0 7 (by omega) (by omega) (by omega), hinj 3 7 (by omega) (by omega) (by omega)⟩
  · exact ⟨hinj 0 7 (by omega) (by omega) (by omega), hinj 0 4 (by omega) (by omega) (by omega), hinj 7 4 (by omega) (by omega) (by omega)⟩
  · exact ⟨hinj 1 5 (by omega) (by omega) (by omega), hinj 1 6 (by omega) (by omega) (by omega), hinj 5 6 (by omega) (by omega) (by omega)⟩
  · exact ⟨hinj 1 6 (by omega) (by omega) (by omega), hinj 1 2 (by omega) (by omega) (by omega), hinj 6 2 (by omega) (by omega) (by omega)⟩

theorem octFacesData_nondeg (idx : List ℕ) (hlen : idx.length = 6)
    (hinj : ∀ a b, a < 6 → b < 6 → a ≠ b → idx.getD a 0 ≠ idx.getD b 0) :
    ∀ p ∈ octFacesData idx, Nondeg ⟨p.1, p.2.1, p.2.2⟩ := by
  intro p hp
  simp only [octFacesData, List.mem_cons, List.not_mem_nil, or_false] at hp
  rcases hp with rfl | rfl | rfl | rfl | rfl | rfl | rfl | rfl
  · exact ⟨hinj 0 4 (by omega) (by omega) (by omega), hinj 0 2 (by omega) (by omega) (by omega), hinj 4 2 (by omega) (by omega) (by omega)⟩
  · exact ⟨hinj 0 2 (by omega) (by omega) (by omega), hinj 0 5 (by omega) (by omega) (by omega), hinj 2 5 (by omega) (by omega) (by omega)⟩
  · exact ⟨hinj 0 5 (by omega) (by omega) (by omega), hinj 0 3 (by omega) (by omega) (by omega), hinj 5 3 (by omega) (by omega) (by omega)⟩
  · exact ⟨hinj 0 3 (by omega) (by omega) (by omega), hinj 0 4 (by omega) (by omega) (by omega), hinj 3 4 (by omega) (by omega) (by omega)⟩
  · exact ⟨hinj 1 2 (by omega) (by omega) (by omega), hinj 1 4 (by omega) (by omega) (by omega), hinj 2 4 (by omega) (by omega) (by omega)⟩
  · exact ⟨hinj 1 5 (by omega) (by omega) (by omega), hinj 1 2 (by omega) (by omega) (by omega), hinj 5 2 (by omega) (by omega) (by omega)⟩
  · exact ⟨hinj 1 3 (by omega) (by omega) (by omega), hinj 1 5 (by omega) (by omega) (by omega), hinj 3 5 (by omega) (by omega) (by omega)⟩
  · exact ⟨hinj 1 4 (by omega) (by omega) (by omega), hinj 1 3 (by omega) (by omega) (by omega), hinj 4 3 (by omega) (by omega) (by omega)⟩

theorem tetra_base_nondeg (p1 p2 p3 p4 : Vec3) (s : GenState) (h : GenInv s)
    (hnd : (([p1, p2, p3, p4]).map quantKey).Nodup)
    (hold : ∀ f ∈ s.exportFaces, Nondeg f) :
    ∀ f ∈ (subdivideTetrahedron p1 p2 p3 p4 0 s).exportFaces, Nondeg f := by
  rw [subdivideTetrahedron_zero]
  obtain ⟨g1, g2, g3, g4, g5, g6, g7⟩ := auvs_ok [p1, p2, p3, p4] s h
  have hlen4 : (addUniqueVertices [p1, p2, p3, p4] s).1.length = 4 := by
    simpa using g4
  obtain ⟨k1, k2, k3, k4⟩ :=
    pushFaces_ok _ _ g1 (tetraFacesData_bound _ _ hlen4 g5)
  intro f hf
  rw [k4, g2] at hf
  rcases List.mem_append.mp hf with hf | hf
  · exact hold f hf
  · obtain ⟨p, hp, rfl⟩ := List.mem_map.mp hf
    exact tetraFacesData_nondeg _ hlen4
      (fun a b ha hb hab =>
        auvs_idx_inj [p1, p2, p3, p4] s h hnd a b (by simpa using ha)
          (by simpa using hb) hab) p hp

theorem cube_base_nondeg (center : Vec3) (sideLength : ℚ) (s : GenState)
    (h : GenInv s)
    (hnd : ((cubeCorners center (sideLength / 2)).map quantKey).Nodup)
    (hold : ∀ f ∈ s.exportFaces, Nondeg f) :
    ∀ f ∈ (subdivideCube center sideLength 0 s).exportFaces, Nondeg f := by
  rw [subdivideCube_zero]
  obtain ⟨g1, g2, g3, g4, g5, g6, g7⟩ :=
    auvs_ok (cubeCorners center (sideLength / 2)) s h
  have hlen8 :
      (addUniqueVertices (cubeCorners center (sideLength / 2)) s).1.length = 8 := by
    rw [g4]
    simp [cubeCorners]
  obtain ⟨k1, k2, k3, k4⟩ :=
    pushFaces_ok _ _ g1 (cubeFacesData_bound _ _ hlen8 g5)
  intro f hf
  rw [k4, g2] at hf
  rcases List.mem_append.mp hf with hf | hf
  · exact hold f hf
  · obtain ⟨p, hp, rfl⟩ := List.mem_map.mp hf
    exact cubeFacesData_nondeg _ hlen8
      (fun a b ha hb hab =>
        auvs_idx_inj (cubeCorners center (sideLength / 2)) s h hnd a b
          (by simp [cubeCorners]; omega) (by simp [cubeCorners]; omega) hab) p hp

theorem oct_base_nondeg (center : Vec3) (scale : ℚ) (s : GenState)
    (h : GenInv s)
    (hnd : ((octVertices center scale).map quantKey).Nodup)
    (hold : ∀ f ∈ s.exportFaces, Nondeg f) :
    ∀ f ∈ (subdivideOctahedron center scale 0 s).exportFaces, Nondeg f := by
  rw [subdivideOctahedron_zero]
  obtain ⟨g1, g2, g3, g4, g5, g6, g7⟩ :=
    auvs_ok (octVertices center scale) s h
  have hlen6 :
      (addUniqueVertices (octVertices center scale) s).1.length = 6 := by
    rw [g4]
    simp [octVertices]
  obtain ⟨k1, k2, k3, k4⟩ :=
    pushFaces_ok _ _ g1 (octFacesData_bound _ _ hlen6 g5)
  intro f hf
  rw [k4, g2] at hf
  rcases List.mem_append.mp hf with hf | hf
  · exact hold f hf
  · obtain ⟨p, hp, rfl⟩ := List.mem_map.mp hf
    exact octFacesData_nondeg _ hlen6
      (fun a b ha hb hab =>
        auvs_idx_inj (octVertices center scale) s h hnd a b
          (by simp [octVertices]; omega) (by simp [octVertices]; omega) hab) p hp

theorem subdivideTetrahedron_nondeg (level : ℕ) :
    ∀ (p1 p2 p3 p4 : Vec3) (s : GenState), GenInv s →
    (∀ c ∈ tetraCells p1 p2 p3 p4 level, (c.map quantKey).Nodup) →
    (∀ f ∈ s.exportFaces, Nondeg f) →
    ∀ f ∈ (subdivideTetrahedron p1 p2 p3 p4 level s).exportFaces, Nondeg f := by
  induction level with
  | zero =>
    intro p1 p2 p3 p4 s h hc hold
    exact tetra_base_nondeg p1 p2 p3 p4 s h
      (hc [p1, p2, p3, p4] (by simp [tetraCells])) hold
  | succ n ih =>
    intro p1 p2 p3 p4 s h hc hold
    simp only [subdivideTetrahedron]
    simp only [tetraCells] at hc
    have hc1 : ∀ c ∈ tetraCells p1 ((p1.add p2).smul (1/2))
        ((p1.add p3).smul (1/2)) ((p1.add p4).smul (1/2)) n,
        (c.map quantKey).Nodup :=
      fun c hcc => hc c (List.mem_append_left _
        (List.mem_append_left _ (List.mem_append_left _ hcc)))
    have hc2 : ∀ c ∈ tetraCells ((p1.add p2).smul (1/2)) p2
        ((p2.add p3).smul (1/2)) ((p2.add p4).smul (1/2)) n,
        (c.map quantKey).Nodup :=
      fun c hcc => hc c (List.mem_append_left _
        (List.mem_append_left _ (List.mem_append_right _ hcc)))
    have hc3 : ∀ c ∈ tetraCells ((p1.add p3).smul (1/2))
        ((p2.add p3).smul (1/2)) p3 ((p3.add p4).smul (1/2)) n,
        (c.map quantKey).Nodup :=
      fun c hcc => hc c (List.mem_append_left _ (List.mem_append_right _ hcc))
    have hc4 : ∀ c ∈ tetraCells ((p1.add p4).smul (1/2))
        ((p2.add p4).smul (1/2)) ((p3.add p4).smul (1/2)) p4 n,
        (c.map quantKey).Nodup :=
      fun c hcc => hc c (List.mem_append_right _ hcc)
    obtain ⟨a1, -, -, -⟩ := subdivideTetrahedron_ok n p1
      ((p1.add p2).smul (1/2)) ((p1.add p3).smul (1/2))
      ((p1.add p4).smul (1/2)) s h
    have nd1 := ih p1 ((p1.add p2).smul (1/2)) ((p1.add p3).smul (1/2))
      ((p1.add p4).smul (1/2)) s h hc1 hold
    obtain ⟨b1, -, -, -⟩ := subdivideTetrahedron_ok n ((p1.add p2).smul (1/2))
      p2 ((p2.add p3).smul (1/2)) ((p2.add p4).smul (1/2)) _ a1
    have nd2 := ih ((p1.add p2).smul (1/2)) p2 ((p2.add p3).smul (1/2))
      ((p2.add p4).smul (1/2)) _ a1 hc2 nd1
    obtain ⟨c1, -, -, -⟩ := subdivideTetrahedron_ok n ((p1.add p3).smul (1/2))
      ((p2.add p3).smul (1/2)) p3 ((p3.add p4).smul (1/2)) _ b1
    have nd3 := ih ((p1.add p3).smul (1/2)) ((p2.add p3).smul (1/2)) p3
      ((p3.add p4).smul (1/2)) _ b1 hc3 nd2
    exact ih ((p1.add p4).smul (1/2)) ((p2.add p4).smul (1/2))
      ((p3.add p4).smul (1/2)) p4 _ c1 hc4 nd3

theorem subdivideCube_nondeg (level : ℕ) :
    ∀ (center : Vec3) (sideLength : ℚ) (s : GenState), GenInv s →
    (∀ c ∈ cubeCells center sideLength level, (c.map quantKey).Nodup) →
    (∀ f ∈ s.exportFaces, Nondeg f) →
    ∀ f ∈ (subdivideCube center sideLength level s).exportFaces, Nondeg f := by
  induction level with
  | zero =>
    intro center sideLength s h hc hold
    exact cube_base_nondeg center sideLength s h
      (hc (cubeCorners center (sideLength / 2)) (by simp [cubeCells])) hold
  | succ n ih =>
    intro center sideLength s h hc hold
    simp only [subdivideCube]
    simp only [cubeCells] at hc
    refine (foldl_pres
      (fun u => GenInv u ∧ ∀ f ∈ u.exportFaces, Nondeg f)
      _ gridTriples ?_ s ⟨h, hold⟩).2
    intro t ht u hu
    by_cases hz : zeroCount t.1 t.2.1 t.2.2 < 2
    · simp only [if_pos hz]
      refine ⟨(subdivideCube_ok n _ _ u hu.1).1, ?_⟩
      refine ih _ _ u hu.1 ?_ hu.2
      intro c hcc
      refine hc c (List.mem_flatMap.mpr ⟨t, List.mem_filter.mpr ⟨ht, ?_⟩, hcc⟩)
      exact decide_eq_true hz
    · simp only [if_neg hz]
      exact hu

theorem subdivideOctahedron_nondeg (level : ℕ) :
    ∀ (center : Vec3) (scale : ℚ) (s : GenState), GenInv s →
    (∀ c ∈ octCells center scale level, (c.map quantKey).Nodup) →
    (∀ f ∈ s.exportFaces, Nondeg f) →
    ∀ f ∈ (subdivideOctahedron center scale level s).exportFaces, Nondeg f := by
  induction level with
  | zero =>
    intro center scale s h hc hold
    exact oct_base_nondeg center scale s h
      (hc (octVertices center scale) (by simp [octCells])) hold
  | succ n ih =>
    intro center scale s h hc hold
    simp only [subdivideOctahedron]
    simp only [octCells] at hc
    refine (foldl_pres
      (fun u => GenInv u ∧ ∀ f ∈ u.exportFaces, Nondeg f)
      _ (octSubCenters center (scale * (1/2))) ?_ s ⟨h, hold⟩).2
    intro c hcm u hu
    refine ⟨(subdivideOctahedron_ok n c (scale * (1/2)) u hu.1).1, ?_⟩
    refine ih c (scale * (1/2)) u hu.1 ?_ hu.2
    intro cc hcc
    exact hc cc (List.mem_flatMap.mpr ⟨c, hcm, hcc⟩)

theorem generate_nondeg (t : FractalType) (level : ℕ) (size : ℚ)
    (hc : ∀ c ∈ cellsOf t level size, (c.map quantKey).Nodup) :
    ∀ f ∈ (generate t level size).exportFaces, Nondeg f := by
  cases t with
  | sierpinskiTetrahedron =>
    exact subdivideTetrahedron_nondeg level _ _ _ _ emptyState emptyState_inv
      hc (by simp [emptyState])
  | mengerSponge =>
    exact subdivideCube_nondeg level _ _ emptyState emptyState_inv hc
      (by simp [emptyState])
  | sierpinskiOctahedron =>
    exact subdivideOctahedron_nondeg level _ _ emptyState emptyState_inv hc
      (by simp [emptyState])

/-! ### Helper lemmas: level-0 point and face counts -/

theorem pushFaces_vertices (fs : List (ℕ × ℕ × ℕ)) :
    ∀ s : GenState, (pushFaces fs s).exportVertices = s.exportVertices := by
  induction fs with
  | nil => intro s; rfl
  | cons p rest ih => intro s; exact ih (pushFace p.1 p.2.1 p.2.2 s)

theorem tetra_corner_keys_nodup {size : ℚ} (h : 0 < size) :
    ((([⟨size, size, size⟩, ⟨size, -size, -size⟩, ⟨-size, size, -size⟩,
      ⟨-size, -size, size⟩] : List Vec3)).map quantKey).Nodup := by
  have hp := tofix5_pos h
  have hn := tofix5_neg_pos h
  simp only [List.map_cons, List.map_nil, quantKey, hp, hn]
  simp [List.nodup_cons, Prod.ext_iff]

theorem tetra_zero_counts (size : ℚ) (h : 0 < size) :
    (generateSierpinskiTetrahedron 0 size).exportVertices.length = 4 ∧
    (generateSierpinskiTetrahedron 0 size).exportFaces.length = 4 := by
  constructor
  · show (subdivideTetrahedron _ _ _ _ 0 emptyState).exportVertices.length = 4
    rw [subdivideTetrahedron_zero, pushFaces_vertices,
      auvs_all_new _ _ emptyState_inv (by simp [emptyState])
        (tetra_corner_keys_nodup h)]
    simp [emptyState]
  · show (subdivideTetrahedron _ _ _ _ 0 emptyState).exportFaces.length = 4
    obtain ⟨-, -, a3, -⟩ := tetra_base_ok ⟨size, size, size⟩
      ⟨size, -size, -size⟩ ⟨-size, size, -size⟩ ⟨-size, -size, size⟩
      emptyState emptyState_inv
    rw [a3]
    simp [emptyState]

theorem cube_corner_keys_nodup {size : ℚ} (h : 0 < size) :
    (((cubeCorners ⟨0, 0, 0⟩ (size / 2))).map quantKey).Nodup := by
  have h2 : 0 < size / 2 := by positivity
  have hp := tofix5_pos h2
  have hn := tofix5_neg_pos h2
  simp only [cubeCorners, List.map_cons, List.map_nil, quantKey, zero_sub,
    zero_add, hp, hn]
  simp [List.nodup_cons, Prod.ext_iff]

theorem cube_zero_counts (size : ℚ) (h : 0 < size) :
    (generateMengerSponge 0 size).exportVertices.length = 8 ∧
    (generateMengerSponge 0 size).exportFaces.length = 12 := by
  constructor
  · show (subdivideCube _ _ 0 emptyState).exportVertices.length = 8
    rw [subdivideCube_zero, pushFaces_vertices,
      auvs_all_new _ _ emptyState_inv (by simp [emptyState])
        (cube_corner_keys_nodup h)]
    simp [emptyState, cubeCorners]
  · show (subdivideCube _ _ 0 emptyState).exportFaces.length = 12
    obtain ⟨-, -, a3, -⟩ := cube_base_ok ⟨0, 0, 0⟩ size emptyState
      emptyState_inv
    rw [a3]
    simp [emptyState]

theorem oct_vertex_keys_nodup {size : ℚ} (h : 1/200000 ≤ size) :
    (((octVertices ⟨0, 0, 0⟩ size)).map quantKey).Nodup := by
  have hpos : 0 < size := lt_of_lt_of_le (by norm_num) h
  have hp := tofix5_pos hpos
  have hn := tofix5_neg_pos hpos
  have hn1 : (1 : ℤ) ≤ ⌊size * 100000 + 1/2⌋ := by
    apply Int.le_floor.mpr
    push_cast
    linarith
  have hne : ⌊size * 100000 + 1/2⌋ ≠ 0 := by omega
  have hne0 : (0 : ℤ) ≠ ⌊size * 100000 + 1/2⌋ := by omega
  generalize hgen : ⌊size * 100000 + 1/2⌋ = n at hp hn hne hne0
  simp only [octVertices, List.map_cons, List.map_nil, quantKey, zero_sub,
    zero_add, hp, hn, tofix5_zero]
  simp [List.nodup_cons, Prod.ext_iff, hne, hne0]

theorem oct_zero_counts (size : ℚ) (h : 1/200000 ≤ size) :
    (generateSierpinskiOctahedron 0 size).exportVertices.length = 6 ∧
    (generateSierpinskiOctahedron 0 size).exportFaces.length = 8 := by
  constructor
  · show (subdivideOctahedron _ _ 0 emptyState).exportVertices.length = 6
    rw [subdivideOctahedron_zero, pushFaces_vertices,
      auvs_all_new _ _ emptyState_inv (by simp [emptyState])
        (oct_vertex_keys_nodup h)]
    simp [emptyState, octVertices]
  · show (subdivideOctahedron _ _ 0 emptyState).exportFaces.length = 8
    obtain ⟨-, -, a3, -⟩ := oct_base_ok ⟨0, 0, 0⟩ size emptyState
      emptyState_inv
    rw [a3]
    simp [emptyState]

theorem oct_zero_faces (size : ℚ) :
    (generateSierpinskiOctahedron 0 size).exportFaces.length = 8 := by
  show (subdivideOctahedron _ _ 0 emptyState).exportFaces.length = 8
  obtain ⟨-, -, a3, -⟩ := oct_base_ok ⟨0, 0, 0⟩ size emptyState emptyState_inv
  rw [a3]
  simp [emptyState]

theorem nodup_keys_getD_ne (l : List Vec3) (hnd : (l.map quantKey).Nodup)
    (i j : ℕ) (hi : i < l.length) (hj : j < l.length) (hij : i ≠ j) :
    quantKey (l.getD i ⟨0, 0, 0⟩) ≠ quantKey (l.getD j ⟨0, 0, 0⟩) := by
  have hga : (l.map quantKey).getD i default = quantKey (l.getD i ⟨0, 0, 0⟩) := by
    rw [List.getD_eq_getElem?_getD, List.getD_eq_getElem?_getD,
      List.getElem?_map]
    simp [List.getElem?_eq_getElem hi]
  have hgb : (l.map quantKey).getD j default = quantKey (l.getD j ⟨0, 0, 0⟩) := by
    rw [List.getD_eq_getElem?_getD, List.getD_eq_getElem?_getD,
      List.getElem?_map]
    simp [List.getElem?_eq_getElem hj]
  intro he
  have heq : (l.map quantKey).getD i default = (l.map quantKey).getD j default := by
    rw [hga, hgb, he]
  have hmi : i < (l.map quantKey).length := by simpa using hi
  have hmj : j < (l.map quantKey).length := by simpa using hj
  rw [List.getD_eq_getElem _ _ hmi, List.getD_eq_getElem _ _ hmj] at heq
  exact hij (List.Nodup.getElem_inj_iff hnd |>.mp heq)

/-! ### Claim theorems -/

/-- C1: `addUniqueVertex` on a point whose quantized key (each coordinate
rendered to 5 decimal places) is already in the map returns the previously
assigned index and leaves the state unchanged; otherwise it appends the
original unrounded point to `exportVertices`, its three coordinates to
`bufferVertices`, records the key at index `exportVertices.length`, and
returns that index. -/
theorem addUniqueVertex_weld_spec (v : Vec3) (s : GenState) :
    (∀ i, lookupKey s.vertexMap (quantKey v) = some i →
      addUniqueVertex v s = (i, s)) ∧
    (lookupKey s.vertexMap (quantKey v) = none →
      addUniqueVertex v s =
        (s.exportVertices.length,
          { s with
            bufferVertices := s.bufferVertices ++ [v.x, v.y, v.z],
            exportVertices := s.exportVertices ++ [v],
            vertexMap :=
              s.vertexMap ++ [(quantKey v, s.exportVertices.length)] })) :=
  ⟨fun _ hi => addUniqueVertex_found hi, fun hn => addUniqueVertex_new hn⟩

/-- Witness for C1: welding (1,2,3) into the empty state assigns index 0 and
appends it; welding it again into the resulting state returns index 0 and
leaves the state unchanged. -/
theorem addUniqueVertex_weld_spec_witness :
    (addUniqueVertex ⟨1, 2, 3⟩ emptyState).1 = 0 ∧
    addUniqueVertex ⟨1, 2, 3⟩ (addUniqueVertex ⟨1, 2, 3⟩ emptyState).2 =
      (0, (addUniqueVertex ⟨1, 2, 3⟩ emptyState).2) := by
  constructor
  · have h := (addUniqueVertex_weld_spec ⟨1, 2, 3⟩ emptyState).2 rfl
    rw [h]
    rfl
  · exact (addUniqueVertex_weld_spec ⟨1, 2, 3⟩
      (addUniqueVertex ⟨1, 2, 3⟩ emptyState).2).1 0 (by decide)

/-- C2 counterexample: at the positive size 10⁻⁶ the octahedron level-0
generation yields 4 points, not the 6 the claim asserts for every positive
size — the quantized keys of (0,s,0), (s,0,0) and (0,0,s) coincide at this
size and the vertices weld. -/
theorem generate_level0_counts_counterexample :
    (0 : ℚ) < 1/1000000 ∧
    (generate FractalType.sierpinskiOctahedron 0 (1/1000000)).exportVertices.length = 4 := by
  constructor
  · norm_num
  · decide

/-- C2 amended: at level 0 the tetrahedron yields 4 points and 4 faces and
the sponge cube 8 points and 12 faces for every positive size; the
octahedron yields 8 faces for every size, and 6 points provided
`size ≥ 1/200000` (so that the quantized scale is nonzero and no two of its
six vertices weld). -/
theorem generate_level0_counts (size : ℚ) (h : 0 < size) :
    (generate FractalType.sierpinskiTetrahedron 0 size).exportVertices.length = 4 ∧
    (generate FractalType.sierpinskiTetrahedron 0 size).exportFaces.length = 4 ∧
    (generate FractalType.mengerSponge 0 size).exportVertices.length = 8 ∧
    (generate FractalType.mengerSponge 0 size).exportFaces.length = 12 ∧
    (generate FractalType.sierpinskiOctahedron 0 size).exportFaces.length = 8 ∧
    (1/200000 ≤ size →
      (generate FractalType.sierpinskiOctahedron 0 size).exportVertices.length = 6) := by
  obtain ⟨t1, t2⟩ := tetra_zero_counts size h
  obtain ⟨c1, c2⟩ := cube_zero_counts size h
  exact ⟨t1, t2, c1, c2, oct_zero_faces size,
    fun h2 => (oct_zero_counts size h2).1⟩

/-- Witness for C2 amended: all counts at size 1. -/
theorem generate_level0_counts_witness :
    (generate FractalType.sierpinskiTetrahedron 0 1).exportVertices.length = 4 ∧
    (generate FractalType.mengerSponge 0 1).exportVertices.length = 8 ∧
    (generate FractalType.sierpinskiOctahedron 0 1).exportVertices.length = 6 := by
  have h := generate_level0_counts 1 (by norm_num)
  exact ⟨h.1, h.2.2.1, h.2.2.2.2.2 (by norm_num)⟩

/-- C3: for every kind, level and positive size the flat vertex buffer has
exactly three entries per stored point, the flat index buffer exactly three
entries per face, and every face index is strictly below the point count. -/
theorem generate_buffer_invariants (t : FractalType) (level : ℕ) (size : ℚ)
    (h : 0 < size) :
    (generate t level size).bufferVertices.length =
      3 * (generate t level size).exportVertices.length ∧
    (generate t level size).bufferIndices.length =
      3 * (generate t level size).exportFaces.length ∧
    ∀ f ∈ (generate t level size).exportFaces,
      f.v1 < (generate t level size).exportVertices.length ∧
      f.v2 < (generate t level size).exportVertices.length ∧
      f.v3 < (generate t level size).exportVertices.length := by
  obtain ⟨⟨hbv, hbi, -, -, hfb⟩, -, -⟩ := generate_ok t level size
  exact ⟨by rw [hbv, flat3Q_length], by rw [hbi, flat3N_length], hfb⟩

/-- Witness for C3: the tetrahedron at level 0, size 1. -/
theorem generate_buffer_invariants_witness :
    (generate FractalType.sierpinskiTetrahedron 0 1).bufferVertices.length =
      3 * (generate FractalType.sierpinskiTetrahedron 0 1).exportVertices.length :=
  (generate_buffer_invariants FractalType.sierpinskiTetrahedron 0 1
    (by norm_num)).1

/-- C4 counterexample: for the tetrahedron at level 0 and positive size
10⁻⁶, the first two output points are distinct entries yet each of their
three coordinates differs by strictly less than the 5-decimal-place
tolerance 10⁻⁵ — the weld key is a rounding, not a distance check, and
signed zeros keep tiny mirrored points apart. -/
theorem points_within_tolerance_counterexample :
    (0 : ℚ) < 1/1000000 ∧
    (generate FractalType.sierpinskiTetrahedron 0 (1/1000000)).exportVertices.getD 0 ⟨0, 0, 0⟩ ≠
      (generate FractalType.sierpinskiTetrahedron 0 (1/1000000)).exportVertices.getD 1 ⟨0, 0, 0⟩ ∧
    -(1/100000 : ℚ) <
      ((generate FractalType.sierpinskiTetrahedron 0 (1/1000000)).exportVertices.getD 0 ⟨0, 0, 0⟩).x -
      ((generate FractalType.sierpinskiTetrahedron 0 (1/1000000)).exportVertices.getD 1 ⟨0, 0, 0⟩).x ∧
    ((generate FractalType.sierpinskiTetrahedron 0 (1/1000000)).exportVertices.getD 0 ⟨0, 0, 0⟩).x -
      ((generate FractalType.sierpinskiTetrahedron 0 (1/1000000)).exportVertices.getD 1 ⟨0, 0, 0⟩).x
      < 1/100000 ∧
    -(1/100000 : ℚ) <
      ((generate FractalType.sierpinskiTetrahedron 0 (1/1000000)).exportVertices.getD 0 ⟨0, 0, 0⟩).y -
      ((generate FractalType.sierpinskiTetrahedron 0 (1/1000000)).exportVertices.getD 1 ⟨0, 0, 0⟩).y ∧
    ((generate FractalType.sierpinskiTetrahedron 0 (1/1000000)).exportVertices.getD 0 ⟨0, 0, 0⟩).y -
      ((generate FractalType.sierpinskiTetrahedron 0 (1/1000000)).exportVertices.getD 1 ⟨0, 0, 0⟩).y
      < 1/100000 ∧
    -(1/100000 : ℚ) <
      ((generate FractalType.sierpinskiTetrahedron 0 (1/1000000)).exportVertices.getD 0 ⟨0, 0, 0⟩).z -
      ((generate FractalType.sierpinskiTetrahedron 0 (1/1000000)).exportVertices.getD 1 ⟨0, 0, 0⟩).z ∧
    ((generate FractalType.sierpinskiTetrahedron 0 (1/1000000)).exportVertices.getD 0 ⟨0, 0, 0⟩).z -
      ((generate FractalType.sierpinskiTetrahedron 0 (1/1000000)).exportVertices.getD 1 ⟨0, 0, 0⟩).z
      < 1/100000 := by
  refine ⟨by norm_num, ?_, ?_, ?_, ?_, ?_, ?_, ?_⟩ <;> decide

/-- C4 amended: no two distinct entries of the output point list share the
same quantized weld key (the guarantee the weld actually provides; points
can still be within the 10⁻⁵ tolerance of each other when they round to
different keys). -/
theorem points_keys_distinct (t : FractalType) (level : ℕ) (size : ℚ)
    (h : 0 < size) :
    ∀ i j, i < (generate t level size).exportVertices.length →
      j < (generate t level size).exportVertices.length → i ≠ j →
      quantKey ((generate t level size).exportVertices.getD i ⟨0, 0, 0⟩) ≠
        quantKey ((generate t level size).exportVertices.getD j ⟨0, 0, 0⟩) := by
  intro i j hi hj hij
  obtain ⟨⟨-, -, -, hnd, -⟩, -, -⟩ := generate_ok t level size
  exact nodup_keys_getD_ne _ hnd i j hi hj hij

/-- Witness for C4 amended: the first two points of the tetrahedron at
level 0, size 1 have distinct keys. -/
theorem points_keys_distinct_witness :
    quantKey ((generate FractalType.sierpinskiTetrahedron 0 1).exportVertices.getD 0 ⟨0, 0, 0⟩) ≠
      quantKey ((generate FractalType.sierpinskiTetrahedron 0 1).exportVertices.getD 1 ⟨0, 0, 0⟩) :=
  points_keys_distinct FractalType.sierpinskiTetrahedron 0 1 (by norm_num)
    0 1 (by decide) (by decide) (by decide)

/-- C5 counterexample: at the positive size 10⁻⁶ the octahedron level-0
generation emits the face (0,0,0) — a degenerate triangle — because three
of the six base vertices weld to a single index at this size. -/
theorem faces_nondegenerate_counterexample :
    (0 : ℚ) < 1/1000000 ∧
    (generate FractalType.sierpinskiOctahedron 0 (1/1000000)).exportFaces.getD 0 ⟨9, 9, 9⟩ =
      ⟨0, 0, 0⟩ := by
  constructor
  · norm_num
  · decide

/-- C5 amended: no emitted face has two equal vertex indices provided every
base cell the recursion visits has pairwise-distinct quantized corner keys
(true e.g. for all three kinds at size 1 and small levels; false without
the proviso, e.g. for the octahedron at size 10⁻⁶). -/
theorem faces_nondegenerate_of_cells (t : FractalType) (level : ℕ) (size : ℚ)
    (h : 0 < size)
    (hc : ∀ c ∈ cellsOf t level size, (c.map quantKey).Nodup) :
    ∀ f ∈ (generate t level size).exportFaces,
      f.v1 ≠ f.v2 ∧ f.v1 ≠ f.v3 ∧ f.v2 ≠ f.v3 :=
  fun f hf => generate_nondeg t level size hc f hf

/-- Witness for C5 amended: the octahedron at level 1, size 1 satisfies the
cell condition and its first face is nondegenerate. -/
theorem faces_nondegenerate_of_cells_witness :
    (∀ c ∈ cellsOf FractalType.sierpinskiOctahedron 1 1,
      (c.map quantKey).Nodup) ∧
    ((generate FractalType.sierpinskiOctahedron 1 1).exportFaces.getD 0 ⟨0, 0, 0⟩).v1 ≠
      ((generate FractalType.sierpinskiOctahedron 1 1).exportFaces.getD 0 ⟨0, 0, 0⟩).v2 := by
  have hc : ∀ c ∈ cellsOf FractalType.sierpinskiOctahedron 1 1,
      (c.map quantKey).Nodup := by decide
  refine ⟨hc, ?_⟩
  exact (faces_nondegenerate_of_cells FractalType.sierpinskiOctahedron 1 1
    (by norm_num) hc
    ((generate FractalType.sierpinskiOctahedron 1 1).exportFaces.getD 0 ⟨0, 0, 0⟩)
    (by decide)).1

set_option maxRecDepth 100000 in
/-- C6: the sponge at level 1, size 3 visits exactly 20 level-0 sub-cubes
(one per grid index in {-1,0,1}³ with at most one zero component), emits
exactly 240 faces, and its welded point count (64) is strictly below
160 = 8 × 20. -/
theorem sponge_level1_size3_counts :
    (gridTriples.filter fun t => zeroCount t.1 t.2.1 t.2.2 < 2).length = 20 ∧
    (cellsOf FractalType.mengerSponge 1 3).length = 20 ∧
    (generate FractalType.mengerSponge 1 3).exportFaces.length = 240 ∧
    (generate FractalType.mengerSponge 1 3).exportVertices.length < 160 := by
  refine ⟨by decide, by decide, by decide, ?_⟩
  have h64 : (generate FractalType.mengerSponge 1 3).exportVertices.length = 64 := by
    decide
  omega

/-- C7: the octahedron at level 0, size 1 yields exactly the six axis
points in source order and exactly the eight faces of the fixed winding
table (four top-pyramid faces from the +y apex, four bottom-pyramid faces
from the −y apex). -/
theorem octahedron_level0_size1_exact :
    (generate FractalType.sierpinskiOctahedron 0 1).exportVertices =
      [⟨0, 1, 0⟩, ⟨0, -1, 0⟩, ⟨1, 0, 0⟩, ⟨-1, 0, 0⟩, ⟨0, 0, 1⟩, ⟨0, 0, -1⟩] ∧
    (generate FractalType.sierpinskiOctahedron 0 1).exportFaces =
      [⟨0, 4, 2⟩, ⟨0, 2, 5⟩, ⟨0, 5, 3⟩, ⟨0, 3, 4⟩,
       ⟨1, 2, 4⟩, ⟨1, 5, 2⟩, ⟨1, 3, 5⟩, ⟨1, 4, 3⟩] := by
  constructor
  · decide
  · decide

/-- C8: for every level n+1 the octahedron subdivision recurses into exactly
six sub-octahedra at scale scale/2 whose absolute centers are
center ± scale/2 along each axis, each center passed directly as the new
center (never re-offset by the parent center), in source order
(+y, −y, +x, −x, +z, −z). -/
theorem subdivideOctahedron_succ_centers (center : Vec3) (scale : ℚ) (n : ℕ)
    (s : GenState) :
    subdivideOctahedron center scale (n + 1) s =
      subdivideOctahedron ⟨center.x, center.y, center.z - scale/2⟩ (scale/2) n
        (subdivideOctahedron ⟨center.x, center.y, center.z + scale/2⟩ (scale/2) n
          (subdivideOctahedron ⟨center.x - scale/2, center.y, center.z⟩ (scale/2) n
            (subdivideOctahedron ⟨center.x + scale/2, center.y, center.z⟩ (scale/2) n
              (subdivideOctahedron ⟨center.x, center.y - scale/2, center.z⟩ (scale/2) n
                (subdivideOctahedron ⟨center.x, center.y + scale/2, center.z⟩
                  (scale/2) n s))))) := by
  have h2 : scale * (1/2) = scale / 2 := by ring
  simp only [subdivideOctahedron, octSubCenters, List.foldl_cons,
    List.foldl_nil, h2]

/-- C9: generation is total (the embedding is structural recursion on the
level) and for every kind, level and positive size returns non-empty point
and face lists — every base case unconditionally emits geometry. -/
theorem generate_nonempty (t : FractalType) (level : ℕ) (size : ℚ)
    (h : 0 < size) :
    (generate t level size).exportVertices ≠ [] ∧
    (generate t level size).exportFaces ≠ [] := by
  obtain ⟨-, h1, h2⟩ := generate_ok t level size
  exact ⟨List.ne_nil_of_length_pos h1, List.ne_nil_of_length_pos h2⟩

/-- Witness for C9: the tetrahedron at level 0, size 1. -/
theorem generate_nonempty_witness :
    (generate FractalType.sierpinskiTetrahedron 0 1).exportVertices ≠ [] :=
  (generate_nonempty FractalType.sierpinskiTetrahedron 0 1 (by norm_num)).1

/-- C10: the flat buffers mirror the structured output element-wise: entry
3i, 3i+1, 3i+2 of the vertex buffer are the x, y, z of point i, and entry
3j, 3j+1, 3j+2 of the index buffer are the v1, v2, v3 of face j. -/
theorem generate_buffers_mirror (t : FractalType) (level : ℕ) (size : ℚ)
    (h : 0 < size) :
    (∀ i, i < (generate t level size).exportVertices.length →
      (generate t level size).bufferVertices.getD (3 * i) 0 =
        ((generate t level size).exportVertices.getD i ⟨0, 0, 0⟩).x ∧
      (generate t level size).bufferVertices.getD (3 * i + 1) 0 =
        ((generate t level size).exportVertices.getD i ⟨0, 0, 0⟩).y ∧
      (generate t level size).bufferVertices.getD (3 * i + 2) 0 =
        ((generate t level size).exportVertices.getD i ⟨0, 0, 0⟩).z) ∧
    ∀ j, j < (generate t level size).exportFaces.length →
      (generate t level size).bufferIndices.getD (3 * j) 0 =
        ((generate t level size).exportFaces.getD j ⟨0, 0, 0⟩).v1 ∧
      (generate t level size).bufferIndices.getD (3 * j + 1) 0 =
        ((generate t level size).exportFaces.getD j ⟨0, 0, 0⟩).v2 ∧
      (generate t level size).bufferIndices.getD (3 * j + 2) 0 =
        ((generate t level size).exportFaces.getD j ⟨0, 0, 0⟩).v3 := by
  obtain ⟨⟨hbv, hbi, -, -, -⟩, -, -⟩ := generate_ok t level size
  constructor
  · intro i hi
    rw [hbv]
    exact flat3Q_getD _ i hi
  · intro j hj
    rw [hbi]
    exact flat3N_getD _ j hj

/-- Witness for C10: first vertex-buffer entry of the tetrahedron at
level 0, size 1 equals the x of its first point. -/
theorem generate_buffers_mirror_witness :
    (generate FractalType.sierpinskiTetrahedron 0 1).bufferVertices.getD 0 0 =
      ((generate FractalType.sierpinskiTetrahedron 0 1).exportVertices.getD 0 ⟨0, 0, 0⟩).x :=
  ((generate_buffers_mirror FractalType.sierpinskiTetrahedron 0 1
    (by norm_num)).1 0 (by decide)).1
